import Mathlib

/-
Verification of the multidl-ytdlp batch orchestrator (src/main.go).

The Go program is embedded shallowly:
  * `SafeSet` values (processedArchive.m, pending.m) become `List String`
    with insert-if-absent / remove-key operations, mirroring Go map
    semantics (at most one entry per key).
  * The archive file becomes an explicit `List String` of its lines.
  * Fallible I/O (os.OpenFile, fmt.Fprintln, yt-dlp execution) is driven
    by explicit Bool oracles supplied as parameters of the model.
  * The concurrent fan-out over goroutines is modelled as a sequential
    interleaving: each job runs to completion against the shared state
    before the next starts; each job produces exactly one result, matching
    the deferred `results <- result` send on every exit path.
  * main's control flow (initArchive before the empty-argument check,
    log.Fatalf, os.Exit(1), the summary) becomes `mainRun`, which records
    an event trace, the exit code, the counters, and the `interrupted`
    flag passed to printSummary.  The SIGINT delivery is a Bool parameter
    that the embedded main ignores, because src/main.go registers
    `shutdownSignal` with signal.Notify but never receives from it.
-/

namespace Multidl

/-- Go's unicode whitespace test restricted to the ASCII range, as used by
`strings.TrimSpace` on archive lines. -/
def goIsSpace (c : Char) : Bool :=
  c = ' ' || c = '\t' || c = '\n' || c = '\x0b' || c = '\x0c' || c = '\r'

/-- `strings.TrimSpace`: drop whitespace from both ends of the string. -/
def trimSpace (s : String) : String :=
  ⟨((s.data.dropWhile goIsSpace).reverse.dropWhile goIsSpace).reverse⟩

/-- Insert-if-absent into a Go map-as-set (`m[k] = struct{}{}`): a second
insert of the same key leaves the map unchanged. -/
def setInsert (s : List String) (x : String) : List String :=
  if s.contains x then s else x :: s

/-- Go map key deletion (`delete(m, k)`): the key is gone afterwards. -/
def setRemove (s : List String) (x : String) : List String :=
  s.filter (fun y => y ≠ x)

/-- `initArchive` (src/main.go lines 98-119): scan the archive file line by
line, trim each line, skip blank lines, and record the rest in the
in-memory set `processedArchive.m`.  The file's lines are the input; the
open/scan error path is handled by `mainRun` below. -/
def initArchive (lines : List String) : List String :=
  lines.foldl
    (fun acc rawLine =>
      let line := trimSpace rawLine
      if line = "" then acc else setInsert acc line)
    []

/-- State of the ledger: the in-memory set `processedArchive.m` and the
lines of the backing archive file. -/
structure ArchiveState where
  mem : List String
  file : List String
  deriving DecidableEq, Repr

/-- `appendToArchive` (src/main.go lines 207-223).  Under the archive lock:
open the file in append mode (may fail: `openOk`), write the identifier as
one line (may fail: `writeOk`), and only after a successful write mark the
identifier present in memory.  There is no membership re-check before the
write.  Returns the new state and whether the call returned nil. -/
def appendToArchive (st : ArchiveState) (identifier : String)
    (openOk writeOk : Bool) : ArchiveState × Bool :=
  if openOk = false then
    (st, false)
  else if writeOk = false then
    (st, false)
  else
    ({ mem := setInsert st.mem identifier,
       file := st.file ++ [identifier] }, true)

/-- `markPending` (src/main.go lines 185-199): atomically insert the
identifier into the pending set if absent; report whether it was inserted. -/
def markPending (pending : List String) (identifier : String) :
    List String × Bool :=
  if pending.contains identifier then (pending, false)
  else (identifier :: pending, true)

/-- `unmarkPending` (src/main.go lines 201-205): remove the identifier from
the pending set. -/
def unmarkPending (pending : List String) (identifier : String) :
    List String :=
  setRemove pending identifier

/-- Does `sub` occur at the start of `hay`? (chars of Go strings). -/
def charsStartWith : List Char → List Char → Bool
  | [], _ => true
  | _ :: _, [] => false
  | a :: as, b :: bs => (a = b) && charsStartWith as bs

/-- Does `sub` occur anywhere inside `hay`? -/
def charsHasSub (sub : List Char) : List Char → Bool
  | [] => charsStartWith sub []
  | c :: t => charsStartWith sub (c :: t) || charsHasSub sub t

/-- `strings.Contains(s, sub)` as used by handleProcessingResult. -/
def goContains (s sub : String) : Bool :=
  charsHasSub sub.data s.data

/-- The `processingResult` record sent over the results channel.  `errMsg`
models `Error` (none = nil, some msg = the error's message string);
`archiveErrMsg` models `ArchiveErr` likewise.  Wall-clock fields are
dropped: nothing in the claims depends on them. -/
structure ProcessingResult where
  identifier : String
  itemNumber : Nat
  errMsg : Option String
  archiveErrMsg : Option String
  deriving DecidableEq, Repr

/-- Environment of one job: whether the yt-dlp invocation exits zero
(`taskOk`; a cancelled context surfaces here as a failing run), the error
message yt-dlp's failure carries, and whether the archive open/write
succeed for this job's append. -/
structure JobEnv where
  taskOk : Bool
  taskErrMsg : String
  openOk : Bool
  writeOk : Bool
  deriving Repr

/-- Shared mutable state touched by the jobs: the pending set and the
ledger. -/
structure RunState where
  pending : List String
  archive : ArchiveState
  deriving DecidableEq, Repr

/-- `processVideo` (src/main.go lines 121-183) as a step on the shared
state.  Every exit path of the Go function sends exactly one result via
the deferred channel send; here that is the second component.  Exit paths
in source order: pending rejection (no release, because the deferred
unmarkPending is installed only after a successful markPending), archive
hit, yt-dlp failure, append after success. -/
def processVideo (st : RunState) (identifier : String) (itemNumber : Nat)
    (env : JobEnv) : RunState × ProcessingResult :=
  let acquired := markPending st.pending identifier
  if acquired.2 = false then
    (st, { identifier := identifier, itemNumber := itemNumber,
           errMsg := some "duplicate in progress", archiveErrMsg := none })
  else
    let p := acquired.1
    if st.archive.mem.contains identifier then
      ({ st with pending := unmarkPending p identifier },
       { identifier := identifier, itemNumber := itemNumber,
         errMsg := some "skipped (archived)", archiveErrMsg := none })
    else if env.taskOk = false then
      ({ st with pending := unmarkPending p identifier },
       { identifier := identifier, itemNumber := itemNumber,
         errMsg := some ("yt-dlp error: " ++ env.taskErrMsg),
         archiveErrMsg := none })
    else
      let appended := appendToArchive st.archive identifier env.openOk env.writeOk
      ({ pending := unmarkPending p identifier, archive := appended.1 },
       { identifier := identifier, itemNumber := itemNumber,
         errMsg := none,
         archiveErrMsg := if appended.2 then none else some "archive append failed" })

/-- The three counters of the final summary. -/
structure Counters where
  processed : Nat
  skipped : Nat
  errored : Nat
  deriving DecidableEq, Repr

/-- `handleProcessingResult` (src/main.go lines 225-245): ArchiveErr is
checked first (error); then a non-nil Error whose message contains
"skipped" counts as skipped and any other non-nil Error as an error;
otherwise success.  Exactly the counter-update part is modelled. -/
def handleProcessingResult (c : Counters) (r : ProcessingResult) : Counters :=
  match r.archiveErrMsg with
  | some _ => { c with errored := c.errored + 1 }
  | none =>
    match r.errMsg with
    | some msg =>
        if goContains msg "skipped" then { c with skipped := c.skipped + 1 }
        else { c with errored := c.errored + 1 }
    | none => { c with processed := c.processed + 1 }

/-- The loop body of `deduplicateArgs` (src/main.go lines 247-257): walk the
arguments keeping a `seen` set and an accumulator of kept arguments. -/
def dedupLoop : List String → List String → List String → List String
  | [], _, unique => unique
  | arg :: rest, seen, unique =>
      if seen.contains arg then dedupLoop rest seen unique
      else dedupLoop rest (arg :: seen) (unique ++ [arg])

/-- `deduplicateArgs`: keep the first occurrence of each argument. -/
def deduplicateArgs (args : List String) : List String :=
  dedupLoop args [] []

/-- Modelled from the spec: the subsequence of first occurrences of a list
(spec 4.4: deduplicate preserving first-occurrence order).  Used as the
specification side of the refinement claim about deduplicateArgs. -/
def firstOccurrences : List String → List String
  | [] => []
  | a :: l => a :: firstOccurrences (l.filter (fun x => x ≠ a))
termination_by l => l.length
decreasing_by
  simp only [List.length_cons]
  exact Nat.lt_succ_of_le (List.length_filter_le _ _)

/-- Run the launched jobs as a sequential interleaving, numbering them from
`n` as main does (i+1), threading the shared state and collecting the one
result each job emits. -/
def runJobs (st : RunState) (ids : List String) (n : Nat)
    (envf : Nat → JobEnv) : RunState × List ProcessingResult :=
  match ids with
  | [] => (st, [])
  | identifier :: rest =>
      let step := processVideo st identifier n (envf n)
      let tail := runJobs step.1 rest (n + 1) envf
      (tail.1, step.2 :: tail.2)

/-- Events on main's path, in the order main performs them. -/
inductive MainEvent
  | archiveInit
  | fatalInit
  | usageError
  | jobsLaunched
  | summaryPrinted
  deriving DecidableEq, Repr

/-- What a run of main produces, observable from outside. -/
structure MainOutcome where
  exitCode : Nat
  events : List MainEvent
  interrupted : Bool
  totalItems : Nat
  counters : Counters
  results : List ProcessingResult
  finalState : Option RunState
  deriving Repr

/-- `printSummary`'s headline (src/main.go lines 259-276). -/
def summaryHeadline (interrupted : Bool) : String :=
  if interrupted then "PROCESSING INTERRUPTED" else "PROCESSING COMPLETE"

/-- `main` (src/main.go lines 49-96).  `archiveLoad` is the outcome of
opening and scanning the archive file (`Except.error ()` when the store
exists but cannot be opened or read); `argv` is os.Args[1:]; `envf` gives
each job its environment; `sigintDelivered` records whether an interrupt
signal arrived during the run.  Main registers `shutdownSignal` but never
receives from it and never assigns `interrupted`, so `sigintDelivered` is
deliberately unused, the final `interrupted` is false, and the exit code of
a completed run is Go's default 0 regardless of the counters. -/
def mainRun (archiveLoad : Except Unit (List String)) (argv : List String)
    (envf : Nat → JobEnv) (sigintDelivered : Bool) : MainOutcome :=
  match archiveLoad with
  | Except.error _ =>
      { exitCode := 1, events := [MainEvent.archiveInit, MainEvent.fatalInit],
        interrupted := false, totalItems := 0,
        counters := ⟨0, 0, 0⟩, results := [], finalState := none }
  | Except.ok lines =>
      let arch : ArchiveState := { mem := initArchive lines, file := lines }
      let args := deduplicateArgs argv
      if args.length = 0 then
        { exitCode := 1, events := [MainEvent.archiveInit, MainEvent.usageError],
          interrupted := false, totalItems := 0,
          counters := ⟨0, 0, 0⟩, results := [], finalState := none }
      else
        let ran := runJobs { pending := [], archive := arch } args 1 envf
        { exitCode := 0,
          events := [MainEvent.archiveInit, MainEvent.jobsLaunched,
                     MainEvent.summaryPrinted],
          interrupted := false, totalItems := args.length,
          counters := ran.2.foldl handleProcessingResult ⟨0, 0, 0⟩,
          results := ran.2, finalState := some ran.1 }

/-- A job environment where everything succeeds. -/
def envAllOk : JobEnv := { taskOk := true, taskErrMsg := "", openOk := true, writeOk := true }

/-- A job environment where the yt-dlp invocation fails with a typical exec
error message. -/
def envTaskFails : JobEnv :=
  { taskOk := false, taskErrMsg := "exit status 1", openOk := true, writeOk := true }

/-! ## Helper lemmas -/

lemma setRemove_eq_self (p : List String) (id : String) (h : id ∉ p) :
    setRemove p id = p := by
  unfold setRemove
  apply List.filter_eq_self.mpr
  intro a ha
  have hne : a ≠ id := fun hEq => h (hEq ▸ ha)
  simp [hne]

lemma unmarkPending_cons_self (p : List String) (id : String) (h : id ∉ p) :
    unmarkPending (id :: p) id = p := by
  have h2 : unmarkPending (id :: p) id = setRemove p id := by
    unfold unmarkPending setRemove
    rw [List.filter_cons]
    simp
  rw [h2]
  exact setRemove_eq_self p id h

/-- Total of the three summary counters. -/
def Counters.total (c : Counters) : Nat := c.processed + c.skipped + c.errored

lemma handle_total (c : Counters) (r : ProcessingResult) :
    (handleProcessingResult c r).total = c.total + 1 := by
  unfold handleProcessingResult Counters.total
  rcases r.archiveErrMsg with _ | m
  · rcases r.errMsg with _ | msg
    · simp
      omega
    · by_cases hg : goContains msg "skipped" = true <;> simp [hg] <;> omega
  · simp
    omega

lemma foldl_handle_total (rs : List ProcessingResult) :
    ∀ c : Counters, (rs.foldl handleProcessingResult c).total = c.total + rs.length := by
  induction rs with
  | nil => intro c; simp
  | cons r rest ih =>
      intro c
      rw [List.foldl_cons, ih, handle_total]
      simp only [List.length_cons]
      omega

lemma runJobs_length (ids : List String) :
    ∀ (st : RunState) (n : Nat) (envf : Nat → JobEnv),
      (runJobs st ids n envf).2.length = ids.length := by
  induction ids with
  | nil => intro st n envf; rfl
  | cons a rest ih =>
      intro st n envf
      simp [runJobs, ih]

lemma mem_setInsert (s : List String) (y x : String) :
    x ∈ setInsert s y ↔ x = y ∨ x ∈ s := by
  unfold setInsert
  by_cases h : s.contains y = true
  · have hy : y ∈ s := by simpa using h
    rw [if_pos h]
    constructor
    · exact Or.inr
    · rintro (rfl | hx)
      · exact hy
      · exact hx
  · rw [if_neg h, List.mem_cons]

lemma initArchive_go_mem (lines : List String) :
    ∀ (acc : List String) (x : String),
      x ∈ lines.foldl
        (fun acc rawLine =>
          let line := trimSpace rawLine
          if line = "" then acc else setInsert acc line) acc ↔
      x ∈ acc ∨ (x ≠ "" ∧ ∃ l ∈ lines, trimSpace l = x) := by
  induction lines with
  | nil => intro acc x; simp
  | cons a rest ih =>
      intro acc x
      rw [List.foldl_cons, ih]
      by_cases ha : trimSpace a = ""
      · simp only [ha, if_pos, List.mem_cons]
        constructor
        · rintro (hx | hx)
          · exact Or.inl hx
          · exact Or.inr ⟨hx.1, hx.2.choose, Or.inr hx.2.choose_spec.1, hx.2.choose_spec.2⟩
        · rintro (hx | ⟨hne, l, hl, hlx⟩)
          · exact Or.inl hx
          · rcases hl with rfl | hl
            · exact absurd (ha ▸ hlx) (fun hEq => hne hEq.symm)
            · exact Or.inr ⟨hne, l, hl, hlx⟩
      · simp only [ha, if_neg, if_false, mem_setInsert, List.mem_cons]
        constructor
        · rintro ((rfl | hx) | ⟨hne, l, hl, hlx⟩)
          · exact Or.inr ⟨ha, a, Or.inl rfl, rfl⟩
          · exact Or.inl hx
          · exact Or.inr ⟨hne, l, Or.inr hl, hlx⟩
        · rintro (hx | ⟨hne, l, hl, hlx⟩)
          · exact Or.inl (Or.inr hx)
          · rcases hl with rfl | hl
            · exact Or.inl (Or.inl hlx.symm)
            · exact Or.inr ⟨hne, l, hl, hlx⟩

lemma firstOccurrences_sublist : ∀ l : List String,
    List.Sublist (firstOccurrences l) l := by
  intro l
  induction l using firstOccurrences.induct with
  | case1 => simp [firstOccurrences]
  | case2 a l ih =>
      rw [firstOccurrences]
      exact List.Sublist.cons₂ a (ih.trans (List.filter_sublist l))

lemma mem_firstOccurrences : ∀ (l : List String) (x : String),
    x ∈ firstOccurrences l ↔ x ∈ l := by
  intro l
  induction l using firstOccurrences.induct with
  | case1 => intro x; simp [firstOccurrences]
  | case2 a l ih =>
      intro x
      rw [firstOccurrences]
      simp only [List.mem_cons, ih, List.mem_filter]
      by_cases hx : x = a <;> simp [hx]

lemma nodup_firstOccurrences : ∀ l : List String, (firstOccurrences l).Nodup := by
  intro l
  induction l using firstOccurrences.induct with
  | case1 => simp [firstOccurrences]
  | case2 a l ih =>
      rw [firstOccurrences]
      refine List.nodup_cons.mpr ⟨?_, ih⟩
      intro hmem
      rw [mem_firstOccurrences] at hmem
      simp [List.mem_filter] at hmem

lemma dedupLoop_eq_firstOccurrences :
    ∀ (rest seen unique : List String),
      dedupLoop rest seen unique =
        unique ++ firstOccurrences (rest.filter (fun x => !(seen.contains x))) := by
  intro rest
  induction rest with
  | nil => intro seen unique; simp [dedupLoop, firstOccurrences]
  | cons a rest ih =>
      intro seen unique
      by_cases h : seen.contains a = true
      · rw [dedupLoop, if_pos h, ih]
        congr 2
        rw [List.filter_cons]
        have ha : a ∈ seen := by simpa using h
        simp [ha]
      · rw [dedupLoop, if_neg h, ih]
        have hnm : a ∉ seen := by simpa using h
        have hstep : (a :: rest).filter (fun x => !(seen.contains x)) =
            a :: rest.filter (fun x => !(seen.contains x)) := by
          rw [List.filter_cons]
          simp [hnm]
        rw [hstep, firstOccurrences]
        have hfil : rest.filter (fun x => !((a :: seen).contains x)) =
            (rest.filter (fun x => !(seen.contains x))).filter
              (fun x => decide (x ≠ a)) := by
          rw [List.filter_filter]
          apply List.filter_congr
          intro x _
          by_cases hx : x = a <;> by_cases hs : x ∈ seen <;>
            simp [hx, hs, List.contains_cons]
        rw [hfil, List.append_assoc]
        rfl

lemma deduplicateArgs_eq_firstOccurrences (args : List String) :
    deduplicateArgs args = firstOccurrences args := by
  unfold deduplicateArgs
  rw [dedupLoop_eq_firstOccurrences]
  simp

lemma processVideo_pending_aux (st : RunState) (id : String) (n : Nat)
    (env : JobEnv) :
    (st.pending.contains id = true → (processVideo st id n env).1 = st) ∧
    (st.pending.contains id = false →
      ((processVideo st id n env).1.pending = st.pending ∧
       (processVideo st id n env).1.pending.contains id = false)) := by
  constructor
  · intro h
    have hm : id ∈ st.pending := by simpa using h
    simp [processVideo, markPending, hm]
  · intro h
    have hm : id ∉ st.pending := by simpa using h
    have hrem : unmarkPending (id :: st.pending) id = st.pending :=
      unmarkPending_cons_self st.pending id hm
    have hpend : (processVideo st id n env).1.pending = st.pending := by
      by_cases h1 : id ∈ st.archive.mem <;> by_cases h2 : env.taskOk = false <;>
        simp [processVideo, markPending, hm, h1, h2, hrem]
    exact ⟨hpend, hpend ▸ h⟩

/-- A yt-dlp failure message is never the duplicate-rejection message: the
two strings differ in their first character. -/
lemma ytdlp_msg_ne_dup (m : String) :
    "yt-dlp error: " ++ m ≠ "duplicate in progress" := by
  intro hEq
  have h := congrArg String.data hEq
  rw [String.data_append] at h
  simp at h

lemma processVideo_empty_pending (st : RunState) (hp : st.pending = [])
    (id : String) (n : Nat) (env : JobEnv) :
    (processVideo st id n env).1.pending = [] ∧
    (processVideo st id n env).2.errMsg ≠ some "duplicate in progress" := by
  have hm : id ∉ st.pending := by simp [hp]
  have hrem : unmarkPending (id :: st.pending) id = st.pending :=
    unmarkPending_cons_self st.pending id hm
  constructor
  · have h := ((processVideo_pending_aux st id n env).2 (by simpa using hm)).1
    rw [h, hp]
  · unfold processVideo markPending
    by_cases h1 : id ∈ st.archive.mem <;> by_cases h2 : env.taskOk = false <;>
      simp [hm, h1, h2] <;>
      first
        | (intro hEq; exact ytdlp_msg_ne_dup env.taskErrMsg hEq)
        | skip

lemma runJobs_no_duplicate_rejection (ids : List String) :
    ∀ (st : RunState), st.pending = [] → ∀ (n : Nat) (envf : Nat → JobEnv),
      (runJobs st ids n envf).1.pending = [] ∧
      (runJobs st ids n envf).2.filter
        (fun r => r.errMsg = some "duplicate in progress") = [] := by
  induction ids with
  | nil => intro st hp n envf; exact ⟨hp, rfl⟩
  | cons a rest ih =>
      intro st hp n envf
      have h1 := processVideo_empty_pending st hp a n (envf n)
      have h2 := ih (processVideo st a n (envf n)).1 h1.1 (n + 1) envf
      constructor
      · simpa [runJobs] using h2.1
      · simp only [runJobs, List.filter_cons]
        rw [if_neg (by simpa using h1.2)]
        exact h2.2

/-! ## Theorems about the claims -/

/-- C6: on every error path of appendToArchive (open failure or write
failure) the in-memory ledger set is unchanged, so a failed durable append
can never produce a false-positive dedup in the same run. -/
theorem append_failure_preserves_memory (st : ArchiveState) (id : String)
    (openOk writeOk : Bool)
    (h : (appendToArchive st id openOk writeOk).2 = false) :
    (appendToArchive st id openOk writeOk).1.mem = st.mem := by
  unfold appendToArchive at h ⊢
  cases openOk <;> cases writeOk <;> simp_all

theorem append_failure_preserves_memory_witness :
    (appendToArchive ⟨[], []⟩ "a" false true).2 = false ∧
    (appendToArchive ⟨[], []⟩ "a" false true).1.mem = [] :=
  ⟨by decide, append_failure_preserves_memory ⟨[], []⟩ "a" false true (by decide)⟩

/-- C2 counterexample: with the identifier "a" already present both in the
in-memory set and in the backing file, appendToArchive still performs a
file write — the claim that it re-checks membership and performs no write
on that path is false on the code (src/main.go lines 207-223 have no
membership check). -/
theorem append_present_writes_line_cex :
    (appendToArchive ⟨["a"], ["a"]⟩ "a" true true).1.file = ["a", "a"] ∧
    ¬ (appendToArchive ⟨["a"], ["a"]⟩ "a" true true).1.file = ["a"] := by
  decide

/-- C2 amended: appendToArchive performs no membership re-check; for an
identifier already present in memory and in the file it still appends one
line (a duplicate physical line), the set of the file's distinct lines is
unchanged, the in-memory set is unchanged, and the call reports success. -/
theorem append_no_recheck_distinct_lines (st : ArchiveState) (id : String)
    (hmem : id ∈ st.mem) (hfile : id ∈ st.file) :
    (appendToArchive st id true true).2 = true ∧
    (appendToArchive st id true true).1.file = st.file ++ [id] ∧
    (∀ x, x ∈ (appendToArchive st id true true).1.file ↔ x ∈ st.file) ∧
    (appendToArchive st id true true).1.mem = st.mem := by
  have hc : st.mem.contains id = true := by simpa using hmem
  have hA : appendToArchive st id true true =
      ({ mem := setInsert st.mem id, file := st.file ++ [id] }, true) := rfl
  have hB : setInsert st.mem id = st.mem := by
    unfold setInsert
    rw [hc]
    rfl
  rw [hA]
  refine ⟨rfl, rfl, ?_, hB⟩
  intro x
  simp only [List.mem_append, List.mem_singleton]
  constructor
  · rintro (hx | rfl)
    · exact hx
    · exact hfile
  · intro hx
    exact Or.inl hx

theorem append_no_recheck_distinct_lines_witness :
    (appendToArchive ⟨["a"], ["a"]⟩ "a" true true).2 = true ∧
    (appendToArchive ⟨["a"], ["a"]⟩ "a" true true).1.mem = ["a"] := by
  have h := append_no_recheck_distinct_lines ⟨["a"], ["a"]⟩ "a"
    (by decide) (by decide)
  exact ⟨h.1, h.2.2.2⟩

/-- C4 counterexample: on empty input the run does exit with code 1, but
the ledger backing store is accessed (opened, created if absent, and read
by initArchive) before the empty-input check — main calls initArchive at
src/main.go line 62, before deduplicateArgs at line 68.  The claim that no
ledger access happens is false on the code. -/
theorem empty_input_archive_access_cex :
    MainEvent.archiveInit ∈ (mainRun (Except.ok []) [] (fun _ => envAllOk) false).events ∧
    (mainRun (Except.ok []) [] (fun _ => envAllOk) false).exitCode = 1 := by
  decide

/-- C4 amended: empty input is a usage error with exit code 1 and no job
runs, but the ledger backing store is opened and read first: the event
trace is exactly archive initialization followed by the usage error. -/
theorem empty_input_usage_after_archive_access (lines : List String)
    (envf : Nat → JobEnv) (sig : Bool) :
    (mainRun (Except.ok lines) [] envf sig).exitCode = 1 ∧
    (mainRun (Except.ok lines) [] envf sig).events =
      [MainEvent.archiveInit, MainEvent.usageError] ∧
    (mainRun (Except.ok lines) [] envf sig).results = [] :=
  ⟨rfl, rfl, rfl⟩

/-- C7: the interrupt signal is never observed by main.  A run with a
SIGINT delivered is indistinguishable from one without: src/main.go
registers shutdownSignal (line 54) but never receives from it, never calls
cancel on signal, and never assigns `interrupted`, so the summary headline
is always "PROCESSING COMPLETE" and cancellation never propagates. -/
theorem sigint_never_observed (load : Except Unit (List String))
    (argv : List String) (envf : Nat → JobEnv) :
    mainRun load argv envf true = mainRun load argv envf false ∧
    (mainRun load argv envf true).interrupted = false ∧
    summaryHeadline (mainRun load argv envf true).interrupted =
      "PROCESSING COMPLETE" := by
  have hint : (mainRun load argv envf true).interrupted = false := by
    unfold mainRun
    cases load with
    | error e => rfl
    | ok lines =>
        simp only
        split <;> rfl
  refine ⟨rfl, hint, ?_⟩
  rw [hint]
  rfl

/-- C10: release discipline of the pending tracker.  A job rejected by
markPending changes nothing (no release is performed: the deferred
unmarkPending is installed only after a successful markPending), so the
owner's pending membership survives concurrent rejected jobs; and a job
that owns the identifier leaves the pending set as it found it, with the
identifier absent, on every exit path. -/
theorem pending_release_discipline (st : RunState) (id : String) (n : Nat)
    (env : JobEnv) :
    (st.pending.contains id = true → (processVideo st id n env).1 = st) ∧
    (st.pending.contains id = false →
      ((processVideo st id n env).1.pending = st.pending ∧
       (processVideo st id n env).1.pending.contains id = false)) :=
  processVideo_pending_aux st id n env

theorem pending_release_discipline_witness :
    ((processVideo ⟨["a"], ⟨[], []⟩⟩ "a" 1 envAllOk).1 = ⟨["a"], ⟨[], []⟩⟩) ∧
    ((processVideo ⟨[], ⟨[], []⟩⟩ "a" 1 envAllOk).1.pending = []) :=
  ⟨(pending_release_discipline ⟨["a"], ⟨[], []⟩⟩ "a" 1 envAllOk).1 (by decide),
   ((pending_release_discipline ⟨[], ⟨[], []⟩⟩ "a" 1 envAllOk).2 (by decide)).1⟩

/-- C1: every launched job emits exactly one result (the results list has
one entry per submitted item), and the result handler increments exactly
one counter per result, so after any run
submitted = succeeded + skipped + errored.  This holds on every branch of
main, including the fatal-init and empty-input branches where all values
are zero. -/
theorem submitted_eq_outcome_sum (load : Except Unit (List String))
    (argv : List String) (envf : Nat → JobEnv) (sig : Bool) :
    (mainRun load argv envf sig).results.length =
      (mainRun load argv envf sig).totalItems ∧
    (mainRun load argv envf sig).counters.processed +
      (mainRun load argv envf sig).counters.skipped +
      (mainRun load argv envf sig).counters.errored =
    (mainRun load argv envf sig).totalItems := by
  cases load with
  | error e => exact ⟨rfl, rfl⟩
  | ok lines =>
      by_cases hz : (deduplicateArgs argv).length = 0
      · constructor <;> simp [mainRun, hz]
      · have hlen := runJobs_length (deduplicateArgs argv)
          ⟨[], ⟨initArchive lines, lines⟩⟩ 1 envf
        have htot := foldl_handle_total
          (runJobs ⟨[], ⟨initArchive lines, lines⟩⟩ (deduplicateArgs argv) 1 envf).2
          ⟨0, 0, 0⟩
        unfold Counters.total at htot
        simp only [Nat.zero_add, Nat.add_zero] at htot
        constructor <;> simp [mainRun, hz] <;> omega

/-- C3 counterexample: a run whose single job fails (yt-dlp exits
non-zero) records one error but the process exit code is still 0 — main
(src/main.go lines 90-96) returns normally after draining the results and
never inspects the error counter, so the claim that the exit code is
non-zero whenever a job failed is false on the code. -/
theorem exit_zero_despite_failure_cex :
    (mainRun (Except.ok []) ["b"] (fun _ => envTaskFails) false).counters.errored = 1 ∧
    (mainRun (Except.ok []) ["b"] (fun _ => envTaskFails) false).exitCode = 0 := by
  decide

/-- C3 amended: the exit code is independent of job outcomes.  It is 0
whenever the archive loads and the deduplicated input is non-empty
(whatever the jobs do), and 1 exactly on the two startup failures: archive
initialization error and empty input. -/
theorem exit_code_independent_of_outcomes (lines argv : List String)
    (envf : Nat → JobEnv) (sig : Bool) :
    (deduplicateArgs argv ≠ [] →
      (mainRun (Except.ok lines) argv envf sig).exitCode = 0) ∧
    (deduplicateArgs argv = [] →
      (mainRun (Except.ok lines) argv envf sig).exitCode = 1) ∧
    (mainRun (Except.error ()) argv envf sig).exitCode = 1 := by
  refine ⟨?_, ?_, rfl⟩
  · intro h
    have hz : ¬ (deduplicateArgs argv).length = 0 := by
      simpa [List.length_eq_zero] using h
    simp [mainRun, hz]
  · intro h
    simp [mainRun, h]

theorem exit_code_independent_of_outcomes_witness :
    (mainRun (Except.ok []) ["b"] (fun _ => envTaskFails) false).exitCode = 0 ∧
    (mainRun (Except.ok []) [] (fun _ => envTaskFails) false).exitCode = 1 :=
  ⟨(exit_code_independent_of_outcomes [] ["b"] (fun _ => envTaskFails) false).1
    (by decide),
   (exit_code_independent_of_outcomes [] [] (fun _ => envTaskFails) false).2.1
    (by decide)⟩

/-- C5 counterexample: for input ["a","a"] (same identifier twice) with an
empty archive, only one job is created (deduplicateArgs collapses the
second occurrence before any job exists), so there is no second job that
gets rejected by the pending tracker: the run produces one result, not
two, and zero results carry the duplicate-rejection error. -/
theorem duplicate_input_single_job_cex :
    (mainRun (Except.ok []) ["a", "a"] (fun _ => envAllOk) false).results.length = 1 ∧
    ¬ (mainRun (Except.ok []) ["a", "a"] (fun _ => envAllOk) false).results.length = 2 ∧
    ((mainRun (Except.ok []) ["a", "a"] (fun _ => envAllOk) false).results.filter
      (fun r => r.errMsg = some "duplicate in progress")).length = 0 := by
  decide

/-- C5 amended: supplying the same identifier N>1 times leads to exactly
one job for it: the input deduplication keeps a single occurrence (count 1
in the deduplicated list), and in the run over the deduplicated list no
job is ever rejected by the pending tracker, so the N-1 duplicates produce
no job and no outcome at all (rather than Skipped-Duplicate outcomes). -/
theorem duplicate_input_collapsed_before_jobs (args : List String)
    (id : String) (h : id ∈ args) :
    (deduplicateArgs args).count id = 1 ∧
    (∀ (arch : ArchiveState) (n : Nat) (envf : Nat → JobEnv),
      (runJobs ⟨[], arch⟩ (deduplicateArgs args) n envf).2.filter
        (fun r => r.errMsg = some "duplicate in progress") = []) := by
  constructor
  · have he := deduplicateArgs_eq_firstOccurrences args
    rw [he]
    exact List.count_eq_one_of_mem (nodup_firstOccurrences args)
      ((mem_firstOccurrences args id).mpr h)
  · intro arch n envf
    exact (runJobs_no_duplicate_rejection (deduplicateArgs args) ⟨[], arch⟩ rfl n envf).2

theorem duplicate_input_collapsed_before_jobs_witness :
    ("a" ∈ ["a", "a"]) ∧
    (deduplicateArgs ["a", "a"]).count "a" = 1 ∧
    (runJobs ⟨[], ⟨[], []⟩⟩ (deduplicateArgs ["a", "a"]) 1 (fun _ => envAllOk)).2.filter
      (fun r => r.errMsg = some "duplicate in progress") = [] :=
  ⟨by decide,
   (duplicate_input_collapsed_before_jobs ["a", "a"] "a" (by decide)).1,
   (duplicate_input_collapsed_before_jobs ["a", "a"] "a" (by decide)).2
     ⟨[], []⟩ 1 (fun _ => envAllOk)⟩

/-- C8: initArchive produces exactly the set of non-blank trimmed lines of
the backing store (duplicate lines collapse: membership is all that the
set records), and a load error is fatal to the whole run: main exits with
code 1 before launching any job.  (The creating-if-absent behaviour is the
O_CREATE flag of the open call, an OS effect represented here by a
successful load of an empty line list.) -/
theorem initArchive_load_spec :
    (∀ (lines : List String) (x : String),
      x ∈ initArchive lines ↔ x ≠ "" ∧ ∃ l ∈ lines, trimSpace l = x) ∧
    (∀ (argv : List String) (envf : Nat → JobEnv) (sig : Bool),
      (mainRun (Except.error ()) argv envf sig).exitCode = 1 ∧
      (mainRun (Except.error ()) argv envf sig).results = [] ∧
      (mainRun (Except.error ()) argv envf sig).events =
        [MainEvent.archiveInit, MainEvent.fatalInit]) := by
  constructor
  · intro lines x
    have h := initArchive_go_mem lines [] x
    rw [initArchive, h]
    simp
  · intro argv envf sig
    exact ⟨rfl, rfl, rfl⟩

/-- C9: deduplicateArgs returns the subsequence of first occurrences of
the input: it equals the recursive first-occurrence specification, is a
subsequence of the input (so first-occurrence order is preserved), has no
duplicates, and keeps exactly the identifiers of the input. -/
theorem deduplicateArgs_is_first_occurrences (args : List String) :
    deduplicateArgs args = firstOccurrences args ∧
    List.Sublist (deduplicateArgs args) args ∧
    (deduplicateArgs args).Nodup ∧
    (∀ x, x ∈ deduplicateArgs args ↔ x ∈ args) := by
  have he := deduplicateArgs_eq_firstOccurrences args
  refine ⟨he, ?_, ?_, ?_⟩
  · rw [he]
    exact firstOccurrences_sublist args
  · rw [he]
    exact nodup_firstOccurrences args
  · intro x
    rw [he]
    exact mem_firstOccurrences args x

end Multidl
